import Mathlib

/-!
Shallow embedding of the `clean-tree` directory-tree CLI
(`src/clean-tree.ts`, `src/types.ts`) and verification of its
specification.

Modelling conventions:
* The filesystem is an inductive tree `FSNode`.  A `dir` node carries
  `readErr : Option String`: `none` means `fs.readdirSync` succeeds and
  returns the children in list order, `some msg` means `readdirSync`
  throws an error whose `.message` is `msg` (permission error, race
  deletion).  A `broken` node is a path on which `fs.statSync` throws
  (race-deleted entry, broken symlink, permission failure), so
  classification fails.
* Paths are lists of segments.  `FileEntry.fullPath` is the absolute
  path (`path.join(currentPath, entry)`), and
  `path.relative(startPath, p)` for `p` under `startPath` is modelled by
  dropping the start path's leading segments.
* `console.log` output is modelled as a list of structured `OutLine`
  values; `OutLine.text` is the exact printed text (chalk styling is a
  functional no-op passthrough).  The `TreeStats` counters are threaded
  explicitly through the traversal, mirroring the mutable `this.stats`.
* The external ignore-pattern engine (`ignore` npm package) is out of
  scope per the spec; the composed predicate `ig.ignores` is an abstract
  boolean function on relative paths in `TreeGeneratorConfig`.
  `String.localeCompare` is modelled as the sign-valued comparison by
  the standard (case-sensitive) string order.
* `options.depth ?? Infinity` is modelled as `Option Nat`, `none`
  standing for `Infinity` (so the `currentDepth > maxDepth` test is
  always false when unset).
-/

/-- A filesystem node, as observed through `fs.statSync` / `fs.readdirSync`. -/
inductive FSNode where
  /-- A regular file. -/
  | file (name : String)
  /-- A directory; `readErr = some msg` means `readdirSync` throws `msg`. -/
  | dir (name : String) (readErr : Option String) (children : List FSNode)
  /-- A path on which `statSync` throws (race deletion, broken symlink). -/
  | broken (name : String)
deriving Repr

/-- Base name of a node. -/
def FSNode.name : FSNode → String
  | .file n => n
  | .dir n _ _ => n
  | .broken n => n

/-- Model of the `fs.Stats` object: only the two query methods the code uses. -/
structure Stats where
  isDirectory : Bool
  isFile : Bool
deriving DecidableEq, Repr

namespace FileUtils

/-- `FileUtils.getFileStat`: `fs.statSync` wrapped in try/catch, `undefined`
(`none`) on any failure. -/
def getFileStat : FSNode → Option Stats
  | .file _ => some { isDirectory := false, isFile := true }
  | .dir _ _ _ => some { isDirectory := true, isFile := false }
  | .broken _ => none

/-- `FileUtils.isDirectory`: `stat?.isDirectory() ?? false`. -/
def isDirectory (node : FSNode) : Bool :=
  ((getFileStat node).map Stats.isDirectory).getD false

/-- `FileUtils.isFile`: `stat?.isFile() ?? false`. -/
def isFile (node : FSNode) : Bool :=
  ((getFileStat node).map Stats.isFile).getD false

end FileUtils

/-- `FileEntry` from `types.ts` (paths as segment lists). -/
structure FileEntry where
  name : String
  fullPath : List String
  isDirectory : Bool
  isLast : Bool
  stats : Option Stats
deriving DecidableEq, Repr

/-- `TreeStats` from `types.ts`. -/
structure TreeStats where
  dirCount : Nat
  fileCount : Nat
deriving DecidableEq, Repr

/-- `TreeGeneratorConfig` from `types.ts`: the resolved start path, the
effective max depth (`none` = `Infinity`) and the composed ignore
predicate (the `ignoreRules.ignores` method of the external `ignore`
engine, abstracted as a boolean function on relative paths). -/
structure TreeGeneratorConfig where
  startPath : List String
  maxDepth : Option Nat
  ignoreRules : List String → Bool

-- `TREE_SYMBOLS` from `types.ts`.
namespace TREE_SYMBOLS

def BRANCH : String := "├── "

def LAST : String := "└── "

def VERTICAL : String := "│   "

def SPACE : String := "    "

end TREE_SYMBOLS

/-- Model of `path.relative(startPath, p)` for a path under the start path:
drop the start path's leading segments. -/
def pathRelative (startPath p : List String) : List String :=
  p.drop startPath.length

/-- The fixed OS-junk blocklist from `FilterUtils.createSystemFileFilter`. -/
def systemFiles : List String := [".DS_Store", "Thumbs.db", "desktop.ini"]

namespace FilterUtils

/-- `FilterUtils.createSystemFileFilter`: keep an entry iff its base name is
not one of the three OS-junk names. -/
def createSystemFileFilter (entry : FileEntry) : Bool :=
  !(systemFiles.contains entry.name)

/-- `FilterUtils.createIgnoreFilter`: keep an entry iff the composed ignore
predicate rejects its path relative to the (single global) start path. -/
def createIgnoreFilter (ign : List String → Bool) (startPath : List String)
    (entry : FileEntry) : Bool :=
  !(ign (pathRelative startPath entry.fullPath))

end FilterUtils

/-- Model of `String.prototype.localeCompare`: a sign-valued comparison by
the standard case-sensitive string order. -/
def localeCompare (a b : String) : Int :=
  if a < b then -1 else if b < a then 1 else 0

namespace SortUtils

/-- `SortUtils.createDefaultSort`: directories first, then by name. -/
def createDefaultSort (a b : FileEntry) : Int :=
  if a.isDirectory && !b.isDirectory then -1
  else if !a.isDirectory && b.isDirectory then 1
  else localeCompare a.name b.name

end SortUtils

/-- The "keep `a` before `b`" relation induced by the comparator, i.e.
`createDefaultSort a b <= 0`.  `Array.prototype.sort` with a consistent
comparator is a stable sort with respect to exactly this relation. -/
def sortLE (p q : FileEntry × FSNode) : Prop :=
  SortUtils.createDefaultSort p.1 q.1 ≤ 0

instance : DecidableRel sortLE := fun p q => by
  unfold sortLE; infer_instance

/-- Entries produced from one `fs.readdirSync` listing
(`TreeGenerator.createFileEntries`).  Each `FileEntry` is paired with the
filesystem node it describes, so that the recursive walk can resolve
`entry.fullPath` without re-traversing the path. -/
def createFileEntries (currentPath : List String) (entries : List FSNode) :
    List (FileEntry × FSNode) :=
  entries.mapIdx fun index c =>
    ({ name := c.name
       fullPath := currentPath ++ [c.name]
       isDirectory := FileUtils.isDirectory c
       isLast := index == entries.length - 1
       stats := FileUtils.getFileStat c }, c)

/-- `TreeGenerator.filterAndSortEntries`: apply the system-file filter and
the ignore filter in order, stable-sort by the default comparator, then
recompute the `isLast` flags over the final list. -/
def filterAndSortEntries (cfg : TreeGeneratorConfig)
    (entries : List (FileEntry × FSNode)) : List (FileEntry × FSNode) :=
  let filters : List (FileEntry → Bool) :=
    [FilterUtils.createSystemFileFilter,
     FilterUtils.createIgnoreFilter cfg.ignoreRules cfg.startPath]
  let filteredEntries := filters.foldl (fun acc f => acc.filter fun p => f p.1) entries
  let sorted := filteredEntries.insertionSort sortLE
  sorted.mapIdx fun index p =>
    ({ p.1 with isLast := index == sorted.length - 1 }, p.2)

/-- `DirectoryContents` from `types.ts`. -/
structure DirectoryContents where
  entries : List (FileEntry × FSNode)
  hasErrors : Bool
  errorMessage : Option String := none

/-- `TreeGenerator.getDirectoryContents`: list a directory, filtering and
sorting its entries; any `readdirSync` failure is caught and reported via
`hasErrors`/`errorMessage` (on a file or a stat-broken path, `readdirSync`
throws `ENOTDIR` / `ENOENT`). -/
def getDirectoryContents (cfg : TreeGeneratorConfig) (currentPath : List String) :
    FSNode → DirectoryContents
  | .dir _ none children =>
      { entries := filterAndSortEntries cfg (createFileEntries currentPath children)
        hasErrors := false }
  | .dir _ (some msg) _ =>
      { entries := [], hasErrors := true, errorMessage := some msg }
  | .file _ =>
      { entries := [], hasErrors := true
        errorMessage := some "ENOTDIR: not a directory" }
  | .broken _ =>
      { entries := [], hasErrors := true
        errorMessage := some "ENOENT: no such file or directory" }

/-- One printed line of output. The structured fields record which entry the
line renders; `OutLine.text` is the exact printed string. -/
inductive OutLine where
  | entryLine (pfx : String) (isLast : Bool) (name : String)
      (fullPath : List String) (isDir : Bool)
  | errorLine (pfx : String) (msg : String)
deriving DecidableEq, Repr

/-- The exact text printed for a line (chalk styling being a no-op). -/
def OutLine.text : OutLine → String
  | .entryLine pfx isLast name _ _ =>
      pfx ++ (if isLast then TREE_SYMBOLS.LAST else TREE_SYMBOLS.BRANCH) ++ name
  | .errorLine pfx msg =>
      pfx ++ TREE_SYMBOLS.LAST ++ "[Error: " ++ msg ++ "]"

/-- `TreeGenerator.displayEntry`: print one line (connector chosen by
`isLast`) and increment the matching counter. -/
def displayEntry (entry : FileEntry) (pfx : String) (st : TreeStats) :
    OutLine × TreeStats :=
  if entry.isDirectory then
    (.entryLine pfx entry.isLast entry.name entry.fullPath true,
     { st with dirCount := st.dirCount + 1 })
  else
    (.entryLine pfx entry.isLast entry.name entry.fullPath false,
     { st with fileCount := st.fileCount + 1 })

/-- `TreeGenerator.getNextPrefix`. -/
def getNextPrefixStr (pfx : String) (isLast : Bool) : String :=
  pfx ++ (if isLast then TREE_SYMBOLS.SPACE else TREE_SYMBOLS.VERTICAL)

/-- The `currentDepth > this.config.maxDepth` test (`none` = `Infinity`,
against which every depth compares false). -/
def depthExceeded (maxDepth : Option Nat) (currentDepth : Nat) : Bool :=
  match maxDepth with
  | none => false
  | some m => currentDepth > m

-- Structural size of a filesystem node (termination measure).
mutual

def FSNode.size : FSNode → Nat
  | .file _ => 1
  | .broken _ => 1
  | .dir _ _ children => 1 + FSNode.sizeList children

def FSNode.sizeList : List FSNode → Nat
  | [] => 1
  | c :: cs => 1 + FSNode.size c + FSNode.sizeList cs

end

/-- Termination measure for lists of (entry, node) pairs. -/
def pairsMeasure (l : List (FileEntry × FSNode)) : Nat :=
  (l.map fun p => 1 + p.2.size).sum

lemma pairsMeasure_nil : pairsMeasure [] = 0 := rfl

lemma pairsMeasure_cons (p : FileEntry × FSNode) (l : List (FileEntry × FSNode)) :
    pairsMeasure (p :: l) = 1 + p.2.size + pairsMeasure l := by
  simp [pairsMeasure]

lemma pairsMeasure_filter (f : FileEntry × FSNode → Bool)
    (l : List (FileEntry × FSNode)) : pairsMeasure (l.filter f) ≤ pairsMeasure l := by
  induction l with
  | nil => simp
  | cons p rest ih =>
      have hc := pairsMeasure_cons p rest
      by_cases h : f p = true
      · rw [List.filter_cons, if_pos h]
        have hc2 := pairsMeasure_cons p (rest.filter f)
        omega
      · rw [List.filter_cons, if_neg h]
        omega

lemma pairsMeasure_insertionSort (l : List (FileEntry × FSNode)) :
    pairsMeasure (l.insertionSort sortLE) = pairsMeasure l := by
  unfold pairsMeasure
  exact ((List.perm_insertionSort sortLE l).map _).sum_eq

lemma pairsMeasure_mapIdx (f : Nat → FileEntry × FSNode → FileEntry)
    (l : List (FileEntry × FSNode)) :
    pairsMeasure (l.mapIdx fun i p => (f i p, p.2)) = pairsMeasure l := by
  induction l generalizing f with
  | nil => rfl
  | cons p rest ih =>
      simp only [List.mapIdx_cons, pairsMeasure_cons]
      rw [ih fun i => f (i + 1)]

lemma pairsMeasure_filterAndSortEntries (cfg : TreeGeneratorConfig)
    (l : List (FileEntry × FSNode)) :
    pairsMeasure (filterAndSortEntries cfg l) ≤ pairsMeasure l := by
  unfold filterAndSortEntries
  simp only [List.foldl_cons, List.foldl_nil]
  rw [pairsMeasure_mapIdx, pairsMeasure_insertionSort]
  exact le_trans (pairsMeasure_filter _ _) (pairsMeasure_filter _ _)

lemma pairsMeasure_createFileEntries_aux (f : Nat → FSNode → FileEntry)
    (cs : List FSNode) :
    pairsMeasure (cs.mapIdx fun i c => (f i c, c)) =
      (cs.map fun c => 1 + c.size).sum := by
  induction cs generalizing f with
  | nil => rfl
  | cons c rest ih =>
      simp only [List.mapIdx_cons, pairsMeasure_cons, List.map_cons, List.sum_cons]
      rw [ih fun i => f (i + 1)]

lemma pairsMeasure_createFileEntries (currentPath : List String)
    (children : List FSNode) :
    pairsMeasure (createFileEntries currentPath children) =
      (children.map fun c => 1 + c.size).sum := by
  unfold createFileEntries
  exact pairsMeasure_createFileEntries_aux _ children

lemma sum_children_lt_sizeList (cs : List FSNode) :
    (cs.map fun c => 1 + c.size).sum < FSNode.sizeList cs := by
  induction cs with
  | nil => simp [FSNode.sizeList]
  | cons c rest ih =>
      simp only [List.map_cons, List.sum_cons, FSNode.sizeList]
      omega

lemma getDirectoryContents_measure_lt (cfg : TreeGeneratorConfig)
    (currentPath : List String) (node : FSNode) :
    pairsMeasure (getDirectoryContents cfg currentPath node).entries < node.size := by
  cases node with
  | file n => simp [getDirectoryContents, pairsMeasure_nil, FSNode.size]
  | broken n => simp [getDirectoryContents, pairsMeasure_nil, FSNode.size]
  | dir n readErr children =>
      cases readErr with
      | some msg => simp [getDirectoryContents, pairsMeasure_nil, FSNode.size]
      | none =>
          simp only [getDirectoryContents]
          have h1 := pairsMeasure_filterAndSortEntries cfg
            (createFileEntries currentPath children)
          rw [pairsMeasure_createFileEntries] at h1
          have h2 := sum_children_lt_sizeList children
          have h3 : FSNode.sizeList children < (FSNode.dir n none children).size := by
            simp [FSNode.size]
          omega

-- `TreeGenerator.walk` and the `contents.entries.forEach` loop inside it,
-- as a mutual pair.  `walk` visits one directory: depth cutoff first, then
-- the listing, then either the single error line or the loop over the
-- filtered, sorted entries.  The loop (`walkEntries`) displays each entry
-- and recurses into directories with the extended prefix and depth + 1.
-- Output lines and the mutable `this.stats` are threaded explicitly.
mutual

def walk (cfg : TreeGeneratorConfig) (node : FSNode) (currentPath : List String)
    (pfx : String) (currentDepth : Nat) (st : TreeStats) :
    List OutLine × TreeStats :=
  if depthExceeded cfg.maxDepth currentDepth then ([], st)
  else
    let contents := getDirectoryContents cfg currentPath node
    if contents.hasErrors then
      ([.errorLine pfx (contents.errorMessage.getD "")], st)
    else
      walkEntries cfg contents.entries pfx currentDepth st
termination_by node.size
decreasing_by
  exact getDirectoryContents_measure_lt cfg currentPath node

def walkEntries (cfg : TreeGeneratorConfig) (entries : List (FileEntry × FSNode))
    (pfx : String) (currentDepth : Nat) (st : TreeStats) :
    List OutLine × TreeStats :=
  match entries with
  | [] => ([], st)
  | (entry, child) :: rest =>
    let r1 := displayEntry entry pfx st
    if entry.isDirectory then
      let r2 := walk cfg child entry.fullPath (getNextPrefixStr pfx entry.isLast)
        (currentDepth + 1) r1.2
      let r3 := walkEntries cfg rest pfx currentDepth r2.2
      (r1.1 :: (r2.1 ++ r3.1), r3.2)
    else
      let r3 := walkEntries cfg rest pfx currentDepth r1.2
      (r1.1 :: r3.1, r3.2)
termination_by pairsMeasure entries
decreasing_by
  all_goals
    have h : pairsMeasure ((entry, child) :: rest) =
        1 + child.size + pairsMeasure rest := pairsMeasure_cons (entry, child) rest
    omega

end

/-- `path.basename` of a segment path. -/
def pathBasename (p : List String) : String :=
  p.getLast?.getD ""

/-- Render a segment path as a string (for error messages). -/
def pathToString (p : List String) : String :=
  String.intercalate "/" p

/-- The summary text printed after traversal:
`` `\n${dirCount} directories, ${fileCount} files` ``. -/
def summaryText (st : TreeStats) : String :=
  "\n" ++ toString st.dirCount ++ " directories, " ++ toString st.fileCount ++ " files"

/-- Result of one `TreeGenerator.generate()` run: either the full output
(header, tree lines, final stats) with exit code 0, or the caught fatal
`TreeError` printed to stderr followed by `process.exit(1)`. -/
inductive GenerateResult where
  | ok (header : String) (lines : List OutLine) (stats : TreeStats)
  | fatal (errText : String)

/-- Process exit code of a run. -/
def GenerateResult.exitCode : GenerateResult → Nat
  | .ok _ _ _ => 0
  | .fatal _ => 1

/-- Lines printed to standard output during a run. -/
def GenerateResult.stdoutLines : GenerateResult → List String
  | .ok header lines stats => header :: lines.map OutLine.text ++ [summaryText stats]
  | .fatal _ => []

/-- Lines printed to standard error during a run. -/
def GenerateResult.stderrLines : GenerateResult → List String
  | .ok _ _ _ => []
  | .fatal e => [e]

/-- `TreeGenerator.generate`: validate that the start path is a directory
(`InvalidPathError` otherwise, caught below and reported as
`Error [INVALID_PATH_ERROR]: ...` with `process.exit(1)`), print the root
header, walk from the start path with empty prefix at depth 1, print the
summary. -/
def generate (cfg : TreeGeneratorConfig) (root : FSNode) : GenerateResult :=
  if FileUtils.isDirectory root then
    let r := walk cfg root cfg.startPath "" 1 { dirCount := 0, fileCount := 0 }
    .ok (pathBasename cfg.startPath) r.1 r.2
  else
    .fatal ("Error [INVALID_PATH_ERROR]: Invalid path: " ++ pathToString cfg.startPath)

-- Ignore-rule setup (`TreeGenerator.setupIgnoreRules` and the two loaders).
-- The filesystem reads made during setup are modelled by `SetupEnv`; the
-- result of setup is the list of rule strings passed to
-- `ignoreRules.add(...)`, in order, together with the warning lines
-- printed to stderr by `console.error`.

/-- Result of reading the start directory's `.gitignore`. -/
inductive FileRead where
  /-- `fs.existsSync` is false. -/
  | missing
  /-- The file exists but `readFileSync` throws with this message. -/
  | failed (msg : String)
  /-- `readFileSync` returns this content. -/
  | ok (content : String)

/-- One entry of the start directory as seen by `loadAllIgnoreRules`:
its name, whether `FileUtils.isFile` holds on it, and the result of
`readFileSync` on it (`Except.error msg` if the read throws). -/
structure StartDirEntry where
  name : String
  isFile : Bool
  read : Except String String

/-- The filesystem state consulted during ignore-rule setup. -/
structure SetupEnv where
  gitignore : FileRead
  listing : Option (List StartDirEntry)

/-- `TreeOptions` from `types.ts`. -/
structure TreeOptions where
  path : String
  depth : Option Nat
  exclude : Option String
  gitignore : Bool
  allignore : Bool

/-- `TreeGenerator.loadGitignoreRules`: returns (rules added, stderr
warnings). A missing file contributes nothing; a read failure is a
non-fatal warning. -/
def loadGitignoreRules (env : SetupEnv) : List String × List String :=
  match env.gitignore with
  | .missing => ([], [])
  | .failed msg => ([], ["Error reading .gitignore file: " ++ msg])
  | .ok content => ([content], [])

/-- Character-level model of `String.prototype.startsWith` (the byte-level
`String.startsWith` of the Lean library is not kernel-executable). -/
def strStartsWith (s pre : String) : Bool :=
  pre.data.isPrefixOf s.data

/-- Character-level model of `String.prototype.endsWith`. -/
def strEndsWith (s suf : String) : Bool :=
  suf.data.isSuffixOf s.data

/-- `TreeGenerator.loadAllIgnoreRules`: list the start directory (a listing
failure aborts silently), keep names starting with `.` and ending with
`ignore`, and add each such regular file's contents; per-file read
failures are non-fatal warnings. -/
def loadAllIgnoreRules (env : SetupEnv) : List String × List String :=
  match env.listing with
  | none => ([], [])
  | some files =>
      let ignoreFiles := files.filter fun f =>
        strStartsWith f.name "." && strEndsWith f.name "ignore"
      ignoreFiles.foldl
        (fun acc f =>
          if f.isFile then
            match f.read with
            | .ok content => (acc.1 ++ [content], acc.2)
            | .error msg =>
                (acc.1, acc.2 ++ ["Error reading " ++ f.name ++ " file: " ++ msg])
          else acc)
        ([], [])

/-- `TreeGenerator.setupIgnoreRules`: `allignore` supersedes `gitignore`;
the explicit exclude pattern, when supplied, is added as one more rule
regardless. Returns (rules added to `ignoreRules`, stderr warnings). -/
def setupIgnoreRules (options : TreeOptions) (env : SetupEnv) :
    List String × List String :=
  let loaded :=
    if options.allignore then loadAllIgnoreRules env
    else if options.gitignore then loadGitignoreRules env
    else ([], [])
  match options.exclude with
  | some pat => (loaded.1 ++ [pat], loaded.2)
  | none => loaded

-- ### Order-theoretic facts about the comparator

lemma localeCompare_nonpos_iff (a b : String) : localeCompare a b ≤ 0 ↔ a ≤ b := by
  unfold localeCompare
  rcases lt_trichotomy a b with h | h | h
  · simp [h, le_of_lt h, not_lt.mpr (le_of_lt h)]
  · simp [h, lt_irrefl]
  · simp [not_lt.mpr (le_of_lt h), h, not_le.mpr h]

lemma sortLE_iff (p q : FileEntry × FSNode) :
    sortLE p q ↔
      (p.1.isDirectory = true ∧ q.1.isDirectory = false) ∨
      (p.1.isDirectory = q.1.isDirectory ∧ p.1.name ≤ q.1.name) := by
  unfold sortLE SortUtils.createDefaultSort
  cases hp : p.1.isDirectory <;> cases hq : q.1.isDirectory <;>
    simp [localeCompare_nonpos_iff]

instance : IsTotal (FileEntry × FSNode) sortLE where
  total p q := by
    rw [sortLE_iff, sortLE_iff]
    rcases le_total p.1.name q.1.name with h | h <;>
      cases hp : p.1.isDirectory <;> cases hq : q.1.isDirectory <;> tauto

instance : IsTrans (FileEntry × FSNode) sortLE where
  trans p q s := by
    rw [sortLE_iff, sortLE_iff, sortLE_iff]
    rintro (⟨h1, h2⟩ | ⟨h1, h2⟩) (⟨h3, h4⟩ | ⟨h3, h4⟩)
    · exact absurd h3 (by rw [h2]; simp)
    · exact Or.inl ⟨h1, by rw [← h3]; exact h2⟩
    · exact Or.inl ⟨h1.trans h3, h4⟩
    · exact Or.inr ⟨h1.trans h3, le_trans h2 h4⟩

-- ### Structure of the filter/sort pipeline

/-- The intermediate filtered list of the pipeline (both filters applied,
in the source's order). -/
def filteredPairs (cfg : TreeGeneratorConfig) (entries : List (FileEntry × FSNode)) :
    List (FileEntry × FSNode) :=
  (entries.filter fun p => FilterUtils.createSystemFileFilter p.1).filter
    fun p => FilterUtils.createIgnoreFilter cfg.ignoreRules cfg.startPath p.1

/-- The intermediate sorted list of the pipeline. -/
def sortedPairs (cfg : TreeGeneratorConfig) (entries : List (FileEntry × FSNode)) :
    List (FileEntry × FSNode) :=
  (filteredPairs cfg entries).insertionSort sortLE

/-- Recomputing one `isLast` flag (the body of the final `map` of the
pipeline). -/
def setLastFlag (p : FileEntry × FSNode) (b : Bool) : FileEntry × FSNode :=
  ({ p.1 with isLast := b }, p.2)

lemma filterAndSortEntries_eq (cfg : TreeGeneratorConfig)
    (entries : List (FileEntry × FSNode)) :
    filterAndSortEntries cfg entries =
      (sortedPairs cfg entries).mapIdx fun index p =>
        setLastFlag p (index == (sortedPairs cfg entries).length - 1) := by
  rfl

lemma length_filterAndSortEntries (cfg : TreeGeneratorConfig)
    (entries : List (FileEntry × FSNode)) :
    (filterAndSortEntries cfg entries).length = (sortedPairs cfg entries).length := by
  rw [filterAndSortEntries_eq]; exact List.length_mapIdx

lemma getElem_filterAndSortEntries (cfg : TreeGeneratorConfig)
    (entries : List (FileEntry × FSNode)) (i : Nat)
    (h2 : i < (sortedPairs cfg entries).length)
    (h1 : i < (filterAndSortEntries cfg entries).length) :
    (filterAndSortEntries cfg entries)[i] =
      setLastFlag ((sortedPairs cfg entries)[i])
        (i == (sortedPairs cfg entries).length - 1) := by
  simp [filterAndSortEntries_eq]

lemma setLastFlag_fields (p : FileEntry × FSNode) (b : Bool) :
    (setLastFlag p b).1.name = p.1.name ∧
    (setLastFlag p b).1.fullPath = p.1.fullPath ∧
    (setLastFlag p b).1.isDirectory = p.1.isDirectory ∧
    (setLastFlag p b).1.stats = p.1.stats ∧
    (setLastFlag p b).2 = p.2 := by
  simp [setLastFlag]

lemma mem_filteredPairs {cfg : TreeGeneratorConfig}
    {entries : List (FileEntry × FSNode)} {p : FileEntry × FSNode}
    (hp : p ∈ filteredPairs cfg entries) :
    p ∈ entries ∧ FilterUtils.createSystemFileFilter p.1 = true ∧
      FilterUtils.createIgnoreFilter cfg.ignoreRules cfg.startPath p.1 = true := by
  unfold filteredPairs at hp
  rcases List.mem_filter.mp hp with ⟨hp1, hke⟩
  rcases List.mem_filter.mp hp1 with ⟨hp2, hsys⟩
  exact ⟨hp2, hsys, hke⟩

lemma mem_sortedPairs {cfg : TreeGeneratorConfig}
    {entries : List (FileEntry × FSNode)} {p : FileEntry × FSNode} :
    p ∈ sortedPairs cfg entries ↔ p ∈ filteredPairs cfg entries := by
  unfold sortedPairs
  exact List.mem_insertionSort sortLE

/-- Every element of the pipeline's output arises from an input pair that
passed both filters, changed only in its `isLast` flag. -/
lemma mem_filterAndSortEntries {cfg : TreeGeneratorConfig}
    {entries : List (FileEntry × FSNode)} {p : FileEntry × FSNode}
    (hp : p ∈ filterAndSortEntries cfg entries) :
    ∃ q ∈ entries,
      FilterUtils.createSystemFileFilter q.1 = true ∧
      FilterUtils.createIgnoreFilter cfg.ignoreRules cfg.startPath q.1 = true ∧
      p.1.name = q.1.name ∧ p.1.fullPath = q.1.fullPath ∧
      p.1.isDirectory = q.1.isDirectory ∧ p.1.stats = q.1.stats ∧ p.2 = q.2 := by
  rw [filterAndSortEntries_eq] at hp
  rcases List.exists_of_mem_mapIdx hp with ⟨i, hi, hpe⟩
  set q := (sortedPairs cfg entries)[i] with hq
  have hqmem : q ∈ sortedPairs cfg entries := List.getElem_mem hi
  have hqf := mem_filteredPairs (mem_sortedPairs.mp hqmem)
  refine ⟨q, hqf.1, hqf.2.1, hqf.2.2, ?_⟩
  rw [← hpe]
  simp [setLastFlag]

/-- Every pair produced by `createFileEntries` describes one child node. -/
lemma mem_createFileEntries {currentPath : List String} {children : List FSNode}
    {p : FileEntry × FSNode} (hp : p ∈ createFileEntries currentPath children) :
    p.2 ∈ children ∧
    p.1.name = p.2.name ∧
    p.1.fullPath = currentPath ++ [p.2.name] ∧
    p.1.isDirectory = FileUtils.isDirectory p.2 ∧
    p.1.stats = FileUtils.getFileStat p.2 := by
  unfold createFileEntries at hp
  rcases List.exists_of_mem_mapIdx hp with ⟨i, hi, hpe⟩
  have hmem : children[i] ∈ children := List.getElem_mem hi
  rw [← hpe]
  exact ⟨hmem, rfl, rfl, rfl, rfl⟩

/-- Combined form for the walker: every pair handed to the entry loop by
`getDirectoryContents` (when the listing succeeds) passed both filters and
describes a child of the listed directory, with `fullPath` one segment
below the listed path. -/
lemma mem_getDirectoryContents_entries {cfg : TreeGeneratorConfig}
    {currentPath : List String} {node : FSNode} {p : FileEntry × FSNode}
    (hp : p ∈ (getDirectoryContents cfg currentPath node).entries) :
    FilterUtils.createSystemFileFilter p.1 = true ∧
    FilterUtils.createIgnoreFilter cfg.ignoreRules cfg.startPath p.1 = true ∧
    p.1.fullPath = currentPath ++ [p.1.name] ∧
    p.1.name = p.2.name ∧
    p.1.isDirectory = FileUtils.isDirectory p.2 ∧
    p.1.stats = FileUtils.getFileStat p.2 := by
  cases node with
  | file n => simp [getDirectoryContents] at hp
  | broken n => simp [getDirectoryContents] at hp
  | dir n readErr children =>
      cases readErr with
      | some msg => simp [getDirectoryContents] at hp
      | none =>
          simp only [getDirectoryContents] at hp
          rcases mem_filterAndSortEntries hp with
            ⟨q, hq, hsys, hke, hname, hfull, hdir, hstats, hsnd⟩
          rcases mem_createFileEntries hq with ⟨_, qname, qfull, qdir, qstats⟩
          have hsysp : FilterUtils.createSystemFileFilter p.1 = true := by
            unfold FilterUtils.createSystemFileFilter at hsys ⊢
            rw [hname]; exact hsys
          have hkep : FilterUtils.createIgnoreFilter cfg.ignoreRules cfg.startPath
              p.1 = true := by
            unfold FilterUtils.createIgnoreFilter at hke ⊢
            rw [hfull]; exact hke
          refine ⟨hsysp, hkep, ?_, ?_, ?_, ?_⟩
          · rw [hfull, hname, qfull, qname]
          · rw [hname, hsnd, qname]
          · rw [hdir, hsnd, qdir]
          · rw [hstats, hsnd, qstats]

-- ### Classifying output lines

/-- Is this line a rendered directory line? -/
def OutLine.isDirLine : OutLine → Bool
  | .entryLine _ _ _ _ isDir => isDir
  | .errorLine _ _ => false

/-- Is this line a rendered file line? -/
def OutLine.isFileLine : OutLine → Bool
  | .entryLine _ _ _ _ isDir => !isDir
  | .errorLine _ _ => false

/-- Number of directory lines in an output fragment. -/
def countDirLines (lines : List OutLine) : Nat :=
  (lines.filter OutLine.isDirLine).length

/-- Number of file lines in an output fragment. -/
def countFileLines (lines : List OutLine) : Nat :=
  (lines.filter OutLine.isFileLine).length

lemma displayEntry_of_dir {entry : FileEntry} (pfx : String) (st : TreeStats)
    (h : entry.isDirectory = true) :
    displayEntry entry pfx st =
      (.entryLine pfx entry.isLast entry.name entry.fullPath true,
       { st with dirCount := st.dirCount + 1 }) := by
  simp [displayEntry, h]

lemma displayEntry_of_file {entry : FileEntry} (pfx : String) (st : TreeStats)
    (h : entry.isDirectory = false) :
    displayEntry entry pfx st =
      (.entryLine pfx entry.isLast entry.name entry.fullPath false,
       { st with fileCount := st.fileCount + 1 }) := by
  simp [displayEntry, h]

-- ### Unfolding equations for the walker

lemma walk_depthExceeded {cfg : TreeGeneratorConfig} {node : FSNode}
    {currentPath : List String} {pfx : String} {currentDepth : Nat} {st : TreeStats}
    (h : depthExceeded cfg.maxDepth currentDepth = true) :
    walk cfg node currentPath pfx currentDepth st = ([], st) := by
  rw [walk]; simp [h]

lemma walk_hasErrors {cfg : TreeGeneratorConfig} {node : FSNode}
    {currentPath : List String} {pfx : String} {currentDepth : Nat} {st : TreeStats}
    (h : depthExceeded cfg.maxDepth currentDepth = false)
    (herr : (getDirectoryContents cfg currentPath node).hasErrors = true) :
    walk cfg node currentPath pfx currentDepth st =
      ([.errorLine pfx
          ((getDirectoryContents cfg currentPath node).errorMessage.getD "")], st) := by
  rw [walk]; simp [h, herr]

lemma walk_ok {cfg : TreeGeneratorConfig} {node : FSNode}
    {currentPath : List String} {pfx : String} {currentDepth : Nat} {st : TreeStats}
    (h : depthExceeded cfg.maxDepth currentDepth = false)
    (hok : (getDirectoryContents cfg currentPath node).hasErrors = false) :
    walk cfg node currentPath pfx currentDepth st =
      walkEntries cfg (getDirectoryContents cfg currentPath node).entries pfx
        currentDepth st := by
  rw [walk]; simp [h, hok]

lemma walkEntries_nil (cfg : TreeGeneratorConfig) (pfx : String)
    (currentDepth : Nat) (st : TreeStats) :
    walkEntries cfg [] pfx currentDepth st = ([], st) := by
  rw [walkEntries]

lemma walkEntries_cons_dir (cfg : TreeGeneratorConfig) {entry : FileEntry}
    (child : FSNode) (rest : List (FileEntry × FSNode)) (pfx : String)
    (currentDepth : Nat) (st : TreeStats) (hdir : entry.isDirectory = true) :
    walkEntries cfg ((entry, child) :: rest) pfx currentDepth st =
      ((.entryLine pfx entry.isLast entry.name entry.fullPath true) ::
        ((walk cfg child entry.fullPath (getNextPrefixStr pfx entry.isLast)
            (currentDepth + 1) { st with dirCount := st.dirCount + 1 }).1 ++
         (walkEntries cfg rest pfx currentDepth
            (walk cfg child entry.fullPath (getNextPrefixStr pfx entry.isLast)
              (currentDepth + 1) { st with dirCount := st.dirCount + 1 }).2).1),
       (walkEntries cfg rest pfx currentDepth
          (walk cfg child entry.fullPath (getNextPrefixStr pfx entry.isLast)
            (currentDepth + 1) { st with dirCount := st.dirCount + 1 }).2).2) := by
  rw [walkEntries]
  simp only [hdir, if_true, displayEntry_of_dir pfx st hdir]

lemma walkEntries_cons_file (cfg : TreeGeneratorConfig) {entry : FileEntry}
    (child : FSNode) (rest : List (FileEntry × FSNode)) (pfx : String)
    (currentDepth : Nat) (st : TreeStats) (hfile : entry.isDirectory = false) :
    walkEntries cfg ((entry, child) :: rest) pfx currentDepth st =
      ((.entryLine pfx entry.isLast entry.name entry.fullPath false) ::
        (walkEntries cfg rest pfx currentDepth
          { st with fileCount := st.fileCount + 1 }).1,
       (walkEntries cfg rest pfx currentDepth
          { st with fileCount := st.fileCount + 1 }).2) := by
  rw [walkEntries]
  simp only [hfile, Bool.false_eq_true, if_false, displayEntry_of_file pfx st hfile]

-- ### The counter invariant: counts equal rendered lines

lemma walk_counts (cfg : TreeGeneratorConfig) :
    (∀ node currentPath pfx currentDepth st,
      (walk cfg node currentPath pfx currentDepth st).2.dirCount =
        st.dirCount + countDirLines (walk cfg node currentPath pfx currentDepth st).1 ∧
      (walk cfg node currentPath pfx currentDepth st).2.fileCount =
        st.fileCount + countFileLines (walk cfg node currentPath pfx currentDepth st).1) ∧
    (∀ entries pfx currentDepth st,
      (walkEntries cfg entries pfx currentDepth st).2.dirCount =
        st.dirCount + countDirLines (walkEntries cfg entries pfx currentDepth st).1 ∧
      (walkEntries cfg entries pfx currentDepth st).2.fileCount =
        st.fileCount + countFileLines (walkEntries cfg entries pfx currentDepth st).1) := by
  refine walk.mutual_induct cfg
    (fun node currentPath pfx currentDepth st =>
      (walk cfg node currentPath pfx currentDepth st).2.dirCount =
        st.dirCount + countDirLines (walk cfg node currentPath pfx currentDepth st).1 ∧
      (walk cfg node currentPath pfx currentDepth st).2.fileCount =
        st.fileCount + countFileLines (walk cfg node currentPath pfx currentDepth st).1)
    (fun entries pfx currentDepth st =>
      (walkEntries cfg entries pfx currentDepth st).2.dirCount =
        st.dirCount + countDirLines (walkEntries cfg entries pfx currentDepth st).1 ∧
      (walkEntries cfg entries pfx currentDepth st).2.fileCount =
        st.fileCount + countFileLines (walkEntries cfg entries pfx currentDepth st).1)
    ?_ ?_ ?_ ?_ ?_ ?_
  · intro node currentPath pfx currentDepth st h
    rw [walk_depthExceeded h]
    simp [countDirLines, countFileLines]
  · intro node currentPath pfx currentDepth st h contents herr
    simp only [Bool.not_eq_true] at h
    have ec : contents = getDirectoryContents cfg currentPath node := rfl
    clear_value contents
    subst ec
    rw [walk_hasErrors h herr]
    simp [countDirLines, countFileLines, OutLine.isDirLine, OutLine.isFileLine]
  · intro node currentPath pfx currentDepth st h contents herr ih
    simp only [Bool.not_eq_true] at h herr
    have ec : contents = getDirectoryContents cfg currentPath node := rfl
    clear_value contents
    subst ec
    rw [walk_ok h herr]
    exact ih
  · intro pfx currentDepth st
    rw [walkEntries_nil]
    simp [countDirLines, countFileLines]
  · intro pfx currentDepth st entry child rest r1 hdir r2 ih1 ih1b ih2
    have er1 : r1 = displayEntry entry pfx st := rfl
    have er2 : r2 = walk cfg child entry.fullPath (getNextPrefixStr pfx entry.isLast)
        (currentDepth + 1) r1.2 := rfl
    clear_value r1 r2
    subst er2
    subst er1
    rw [displayEntry_of_dir pfx st hdir] at ih1b ih2
    rw [walkEntries_cons_dir cfg child rest pfx currentDepth st hdir]
    rcases ih1b with ⟨ihd, ihf⟩
    rcases ih2 with ⟨ihd2, ihf2⟩
    constructor
    · simp only [countDirLines, List.filter_cons, List.filter_append,
        OutLine.isDirLine, if_true, List.length_cons, List.length_append] at *
      omega
    · simp only [countFileLines, List.filter_cons, List.filter_append,
        OutLine.isFileLine, Bool.not_true, Bool.false_eq_true, if_false,
        List.length_append] at *
      omega
  · intro pfx currentDepth st entry child rest r1 hdir ih
    simp only [Bool.not_eq_true] at hdir
    have er1 : r1 = displayEntry entry pfx st := rfl
    clear_value r1
    subst er1
    rw [displayEntry_of_file pfx st hdir] at ih
    rw [walkEntries_cons_file cfg child rest pfx currentDepth st hdir]
    rcases ih with ⟨ihd, ihf⟩
    constructor
    · simp only [countDirLines, List.filter_cons, OutLine.isDirLine,
        Bool.false_eq_true, if_false] at *
      omega
    · simp only [countFileLines, List.filter_cons, OutLine.isFileLine,
        Bool.not_false, if_true, List.length_cons] at *
      omega

-- Spec-modelled reference walker for the unbounded-depth law: identical to
-- `walk`/`walkEntries` but with no depth parameter and no cutoff test,
-- rendering every level ("with depth omitted, full depth is printed").
mutual

def fullWalk (cfg : TreeGeneratorConfig) (node : FSNode) (currentPath : List String)
    (pfx : String) (st : TreeStats) : List OutLine × TreeStats :=
  let contents := getDirectoryContents cfg currentPath node
  if contents.hasErrors then
    ([.errorLine pfx (contents.errorMessage.getD "")], st)
  else
    fullWalkEntries cfg contents.entries pfx st
termination_by node.size
decreasing_by
  exact getDirectoryContents_measure_lt cfg currentPath node

def fullWalkEntries (cfg : TreeGeneratorConfig) (entries : List (FileEntry × FSNode))
    (pfx : String) (st : TreeStats) : List OutLine × TreeStats :=
  match entries with
  | [] => ([], st)
  | (entry, child) :: rest =>
    let r1 := displayEntry entry pfx st
    if entry.isDirectory then
      let r2 := fullWalk cfg child entry.fullPath (getNextPrefixStr pfx entry.isLast) r1.2
      let r3 := fullWalkEntries cfg rest pfx r2.2
      (r1.1 :: (r2.1 ++ r3.1), r3.2)
    else
      let r3 := fullWalkEntries cfg rest pfx r1.2
      (r1.1 :: r3.1, r3.2)
termination_by pairsMeasure entries
decreasing_by
  all_goals
    have h : pairsMeasure ((entry, child) :: rest) =
        1 + child.size + pairsMeasure rest := pairsMeasure_cons (entry, child) rest
    omega

end

-- ### Depth facts

lemma depthExceeded_none (d : Nat) : depthExceeded none d = false := rfl

lemma depthExceeded_some_false_iff (N d : Nat) :
    depthExceeded (some N) d = false ↔ d ≤ N := by
  simp [depthExceeded]

lemma depthExceeded_some_true_iff (N d : Nat) :
    depthExceeded (some N) d = true ↔ N < d := by
  simp [depthExceeded]

-- ### Unfolding equations for the reference walker

lemma fullWalk_hasErrors {cfg : TreeGeneratorConfig} {node : FSNode}
    {currentPath : List String} {pfx : String} {st : TreeStats}
    (herr : (getDirectoryContents cfg currentPath node).hasErrors = true) :
    fullWalk cfg node currentPath pfx st =
      ([.errorLine pfx
          ((getDirectoryContents cfg currentPath node).errorMessage.getD "")], st) := by
  rw [fullWalk]; simp [herr]

lemma fullWalk_ok {cfg : TreeGeneratorConfig} {node : FSNode}
    {currentPath : List String} {pfx : String} {st : TreeStats}
    (hok : (getDirectoryContents cfg currentPath node).hasErrors = false) :
    fullWalk cfg node currentPath pfx st =
      fullWalkEntries cfg (getDirectoryContents cfg currentPath node).entries pfx st := by
  rw [fullWalk]; simp [hok]

lemma fullWalkEntries_nil (cfg : TreeGeneratorConfig) (pfx : String) (st : TreeStats) :
    fullWalkEntries cfg [] pfx st = ([], st) := by
  rw [fullWalkEntries]

lemma fullWalkEntries_cons_dir (cfg : TreeGeneratorConfig) {entry : FileEntry}
    (child : FSNode) (rest : List (FileEntry × FSNode)) (pfx : String)
    (st : TreeStats) (hdir : entry.isDirectory = true) :
    fullWalkEntries cfg ((entry, child) :: rest) pfx st =
      ((.entryLine pfx entry.isLast entry.name entry.fullPath true) ::
        ((fullWalk cfg child entry.fullPath (getNextPrefixStr pfx entry.isLast)
            { st with dirCount := st.dirCount + 1 }).1 ++
         (fullWalkEntries cfg rest pfx
            (fullWalk cfg child entry.fullPath (getNextPrefixStr pfx entry.isLast)
              { st with dirCount := st.dirCount + 1 }).2).1),
       (fullWalkEntries cfg rest pfx
          (fullWalk cfg child entry.fullPath (getNextPrefixStr pfx entry.isLast)
            { st with dirCount := st.dirCount + 1 }).2).2) := by
  rw [fullWalkEntries]
  simp only [hdir, if_true, displayEntry_of_dir pfx st hdir]

lemma fullWalkEntries_cons_file (cfg : TreeGeneratorConfig) {entry : FileEntry}
    (child : FSNode) (rest : List (FileEntry × FSNode)) (pfx : String)
    (st : TreeStats) (hfile : entry.isDirectory = false) :
    fullWalkEntries cfg ((entry, child) :: rest) pfx st =
      ((.entryLine pfx entry.isLast entry.name entry.fullPath false) ::
        (fullWalkEntries cfg rest pfx { st with fileCount := st.fileCount + 1 }).1,
       (fullWalkEntries cfg rest pfx { st with fileCount := st.fileCount + 1 }).2) := by
  rw [fullWalkEntries]
  simp only [hfile, Bool.false_eq_true, if_false, displayEntry_of_file pfx st hfile]

-- ### With no depth limit the walk equals the reference walker

lemma walk_eq_fullWalk (cfg : TreeGeneratorConfig) (hN : cfg.maxDepth = none) :
    (∀ node currentPath pfx currentDepth st,
      walk cfg node currentPath pfx currentDepth st =
        fullWalk cfg node currentPath pfx st) ∧
    (∀ entries pfx currentDepth st,
      walkEntries cfg entries pfx currentDepth st =
        fullWalkEntries cfg entries pfx st) := by
  refine walk.mutual_induct cfg
    (fun node currentPath pfx currentDepth st =>
      walk cfg node currentPath pfx currentDepth st =
        fullWalk cfg node currentPath pfx st)
    (fun entries pfx currentDepth st =>
      walkEntries cfg entries pfx currentDepth st =
        fullWalkEntries cfg entries pfx st)
    ?_ ?_ ?_ ?_ ?_ ?_
  · intro node currentPath pfx currentDepth st h
    rw [hN] at h
    simp [depthExceeded_none] at h
  · intro node currentPath pfx currentDepth st h contents herr
    simp only [Bool.not_eq_true] at h
    have ec : contents = getDirectoryContents cfg currentPath node := rfl
    clear_value contents
    subst ec
    rw [walk_hasErrors h herr, fullWalk_hasErrors herr]
  · intro node currentPath pfx currentDepth st h contents herr ih
    simp only [Bool.not_eq_true] at h herr
    have ec : contents = getDirectoryContents cfg currentPath node := rfl
    clear_value contents
    subst ec
    rw [walk_ok h herr, fullWalk_ok herr]
    exact ih
  · intro pfx currentDepth st
    rw [walkEntries_nil, fullWalkEntries_nil]
  · intro pfx currentDepth st entry child rest r1 hdir r2 ih1 ih1b ih2
    have er1 : r1 = displayEntry entry pfx st := rfl
    have er2 : r2 = walk cfg child entry.fullPath (getNextPrefixStr pfx entry.isLast)
        (currentDepth + 1) r1.2 := rfl
    clear_value r1 r2
    subst er2
    subst er1
    rw [displayEntry_of_dir pfx st hdir] at ih1b ih2
    rw [walkEntries_cons_dir cfg child rest pfx currentDepth st hdir,
      fullWalkEntries_cons_dir cfg child rest pfx st hdir, ih1b]
    rw [ih1b] at ih2
    rw [ih2]
  · intro pfx currentDepth st entry child rest r1 hdir ih
    simp only [Bool.not_eq_true] at hdir
    have er1 : r1 = displayEntry entry pfx st := rfl
    clear_value r1
    subst er1
    rw [displayEntry_of_file pfx st hdir] at ih
    rw [walkEntries_cons_file cfg child rest pfx currentDepth st hdir,
      fullWalkEntries_cons_file cfg child rest pfx st hdir, ih]

-- ### The depth bound: with `--depth N`, entry lines stay within N levels

lemma walk_depth_bound (cfg : TreeGeneratorConfig) (N : Nat)
    (hN : cfg.maxDepth = some N) :
    (∀ node currentPath pfx currentDepth st,
      ∀ line ∈ (walk cfg node currentPath pfx currentDepth st).1,
      ∀ p2 il nm fp di, line = OutLine.entryLine p2 il nm fp di →
        fp.length + currentDepth ≤ currentPath.length + 1 + N) ∧
    (∀ entries pfx currentDepth st, ∀ L : Nat, currentDepth ≤ N →
      (∀ p ∈ entries, (p : FileEntry × FSNode).1.fullPath.length ≤ L) →
      ∀ line ∈ (walkEntries cfg entries pfx currentDepth st).1,
      ∀ p2 il nm fp di, line = OutLine.entryLine p2 il nm fp di →
        fp.length + currentDepth ≤ L + N) := by
  refine walk.mutual_induct cfg
    (fun node currentPath pfx currentDepth st =>
      ∀ line ∈ (walk cfg node currentPath pfx currentDepth st).1,
      ∀ p2 il nm fp di, line = OutLine.entryLine p2 il nm fp di →
        fp.length + currentDepth ≤ currentPath.length + 1 + N)
    (fun entries pfx currentDepth st =>
      ∀ L : Nat, currentDepth ≤ N →
      (∀ p ∈ entries, (p : FileEntry × FSNode).1.fullPath.length ≤ L) →
      ∀ line ∈ (walkEntries cfg entries pfx currentDepth st).1,
      ∀ p2 il nm fp di, line = OutLine.entryLine p2 il nm fp di →
        fp.length + currentDepth ≤ L + N)
    ?_ ?_ ?_ ?_ ?_ ?_
  · intro node currentPath pfx currentDepth st h line hline
    rw [walk_depthExceeded h] at hline
    simp at hline
  · intro node currentPath pfx currentDepth st h contents herr line hline p2 il nm fp di heq
    simp only [Bool.not_eq_true] at h
    have ec : contents = getDirectoryContents cfg currentPath node := rfl
    clear_value contents
    subst ec
    rw [walk_hasErrors h herr] at hline
    simp only [List.mem_singleton] at hline
    rw [hline] at heq
    cases heq
  · intro node currentPath pfx currentDepth st h contents herr ih line hline p2 il nm fp di heq
    simp only [Bool.not_eq_true] at h herr
    have ec : contents = getDirectoryContents cfg currentPath node := rfl
    clear_value contents
    subst ec
    rw [walk_ok h herr] at hline
    have hd : currentDepth ≤ N := by
      rw [hN] at h
      exact (depthExceeded_some_false_iff N currentDepth).mp h
    have hL : ∀ p ∈ (getDirectoryContents cfg currentPath node).entries,
        (p : FileEntry × FSNode).1.fullPath.length ≤ currentPath.length + 1 := by
      intro p hp
      have := (mem_getDirectoryContents_entries hp).2.2.1
      rw [this]
      simp
    exact ih (currentPath.length + 1) hd hL line hline p2 il nm fp di heq
  · intro pfx currentDepth st L hd hL line hline
    rw [walkEntries_nil] at hline
    simp at hline
  · intro pfx currentDepth st entry child rest r1 hdir r2 ih1 ih1b ih2
    intro L hd hL line hline p2 il nm fp di heq
    have er1 : r1 = displayEntry entry pfx st := rfl
    have er2 : r2 = walk cfg child entry.fullPath (getNextPrefixStr pfx entry.isLast)
        (currentDepth + 1) r1.2 := rfl
    clear_value r1 r2
    subst er2
    subst er1
    rw [displayEntry_of_dir pfx st hdir] at ih1b ih2
    rw [walkEntries_cons_dir cfg child rest pfx currentDepth st hdir] at hline
    have hLe : entry.fullPath.length ≤ L := hL (entry, child) (by simp)
    simp only [List.mem_cons, List.mem_append] at hline
    rcases hline with hline | hline | hline
    · rw [hline] at heq
      cases heq
      omega
    · have := ih1b line hline p2 il nm fp di heq
      omega
    · have hLrest : ∀ p ∈ rest, (p : FileEntry × FSNode).1.fullPath.length ≤ L := by
        intro p hp
        exact hL p (by simp [hp])
      exact ih2 L hd hLrest line hline p2 il nm fp di heq
  · intro pfx currentDepth st entry child rest r1 hdir ih
    intro L hd hL line hline p2 il nm fp di heq
    simp only [Bool.not_eq_true] at hdir
    have er1 : r1 = displayEntry entry pfx st := rfl
    clear_value r1
    subst er1
    rw [displayEntry_of_file pfx st hdir] at ih
    rw [walkEntries_cons_file cfg child rest pfx currentDepth st hdir] at hline
    simp only [List.mem_cons] at hline
    rcases hline with hline | hline
    · rw [hline] at heq
      cases heq
      have hLe : entry.fullPath.length ≤ L := hL (entry, child) (by simp)
      omega
    · have hLrest : ∀ p ∈ rest, (p : FileEntry × FSNode).1.fullPath.length ≤ L := by
        intro p hp
        exact hL p (by simp [hp])
      exact ih L hd hLrest line hline p2 il nm fp di heq

-- ### The exclusion invariant: rendered entry lines passed both filters

lemma walk_filters (cfg : TreeGeneratorConfig) :
    (∀ node currentPath pfx currentDepth st,
      ∀ line ∈ (walk cfg node currentPath pfx currentDepth st).1,
      ∀ p2 il nm fp di, line = OutLine.entryLine p2 il nm fp di →
        systemFiles.contains nm = false ∧
        cfg.ignoreRules (pathRelative cfg.startPath fp) = false) ∧
    (∀ entries pfx currentDepth st,
      (∀ p ∈ entries,
        FilterUtils.createSystemFileFilter (p : FileEntry × FSNode).1 = true ∧
        FilterUtils.createIgnoreFilter cfg.ignoreRules cfg.startPath p.1 = true) →
      ∀ line ∈ (walkEntries cfg entries pfx currentDepth st).1,
      ∀ p2 il nm fp di, line = OutLine.entryLine p2 il nm fp di →
        systemFiles.contains nm = false ∧
        cfg.ignoreRules (pathRelative cfg.startPath fp) = false) := by
  refine walk.mutual_induct cfg
    (fun node currentPath pfx currentDepth st =>
      ∀ line ∈ (walk cfg node currentPath pfx currentDepth st).1,
      ∀ p2 il nm fp di, line = OutLine.entryLine p2 il nm fp di →
        systemFiles.contains nm = false ∧
        cfg.ignoreRules (pathRelative cfg.startPath fp) = false)
    (fun entries pfx currentDepth st =>
      (∀ p ∈ entries,
        FilterUtils.createSystemFileFilter (p : FileEntry × FSNode).1 = true ∧
        FilterUtils.createIgnoreFilter cfg.ignoreRules cfg.startPath p.1 = true) →
      ∀ line ∈ (walkEntries cfg entries pfx currentDepth st).1,
      ∀ p2 il nm fp di, line = OutLine.entryLine p2 il nm fp di →
        systemFiles.contains nm = false ∧
        cfg.ignoreRules (pathRelative cfg.startPath fp) = false)
    ?_ ?_ ?_ ?_ ?_ ?_
  · intro node currentPath pfx currentDepth st h line hline
    rw [walk_depthExceeded h] at hline
    simp at hline
  · intro node currentPath pfx currentDepth st h contents herr line hline p2 il nm fp di heq
    simp only [Bool.not_eq_true] at h
    have ec : contents = getDirectoryContents cfg currentPath node := rfl
    clear_value contents
    subst ec
    rw [walk_hasErrors h herr] at hline
    simp only [List.mem_singleton] at hline
    rw [hline] at heq
    cases heq
  · intro node currentPath pfx currentDepth st h contents herr ih line hline
    simp only [Bool.not_eq_true] at h herr
    have ec : contents = getDirectoryContents cfg currentPath node := rfl
    clear_value contents
    subst ec
    rw [walk_ok h herr] at hline
    refine ih ?_ line hline
    intro p hp
    have hm := mem_getDirectoryContents_entries hp
    exact ⟨hm.1, hm.2.1⟩
  · intro pfx currentDepth st hf line hline
    rw [walkEntries_nil] at hline
    simp at hline
  · intro pfx currentDepth st entry child rest r1 hdir r2 ih1 ih1b ih2
    intro hf line hline p2 il nm fp di heq
    have er1 : r1 = displayEntry entry pfx st := rfl
    have er2 : r2 = walk cfg child entry.fullPath (getNextPrefixStr pfx entry.isLast)
        (currentDepth + 1) r1.2 := rfl
    clear_value r1 r2
    subst er2
    subst er1
    rw [displayEntry_of_dir pfx st hdir] at ih1b ih2
    rw [walkEntries_cons_dir cfg child rest pfx currentDepth st hdir] at hline
    simp only [List.mem_cons, List.mem_append] at hline
    rcases hline with hline | hline | hline
    · rw [hline] at heq
      cases heq
      have hfe := hf (entry, child) (by simp)
      constructor
      · have := hfe.1
        unfold FilterUtils.createSystemFileFilter at this
        simpa using this
      · have := hfe.2
        unfold FilterUtils.createIgnoreFilter at this
        simpa using this
    · exact ih1b line hline p2 il nm fp di heq
    · refine ih2 ?_ line hline p2 il nm fp di heq
      intro p hp
      exact hf p (by simp [hp])
  · intro pfx currentDepth st entry child rest r1 hdir ih
    intro hf line hline p2 il nm fp di heq
    simp only [Bool.not_eq_true] at hdir
    have er1 : r1 = displayEntry entry pfx st := rfl
    clear_value r1
    subst er1
    rw [displayEntry_of_file pfx st hdir] at ih
    rw [walkEntries_cons_file cfg child rest pfx currentDepth st hdir] at hline
    simp only [List.mem_cons] at hline
    rcases hline with hline | hline
    · rw [hline] at heq
      cases heq
      have hfe := hf (entry, child) (by simp)
      constructor
      · have := hfe.1
        unfold FilterUtils.createSystemFileFilter at this
        simpa using this
      · have := hfe.2
        unfold FilterUtils.createIgnoreFilter at this
        simpa using this
    · refine ih ?_ line hline p2 il nm fp di heq
      intro p hp
      exact hf p (by simp [hp])

-- ### Ordering facts about the pipeline output

lemma sorted_sortedPairs (cfg : TreeGeneratorConfig)
    (entries : List (FileEntry × FSNode)) :
    List.Sorted sortLE (sortedPairs cfg entries) :=
  List.sorted_insertionSort sortLE (filteredPairs cfg entries)

lemma pairwise_filterAndSortEntries (cfg : TreeGeneratorConfig)
    (entries : List (FileEntry × FSNode)) :
    (filterAndSortEntries cfg entries).Pairwise fun p q =>
      (q.1.isDirectory = true → p.1.isDirectory = true) ∧
      (p.1.isDirectory = q.1.isDirectory → p.1.name ≤ q.1.name) := by
  rw [List.pairwise_iff_getElem]
  intro i j hi hj hij
  have hi2 : i < (sortedPairs cfg entries).length := by
    rw [← length_filterAndSortEntries cfg entries]; exact hi
  have hj2 : j < (sortedPairs cfg entries).length := by
    rw [← length_filterAndSortEntries cfg entries]; exact hj
  have hle : sortLE ((sortedPairs cfg entries)[i]) ((sortedPairs cfg entries)[j]) :=
    (List.pairwise_iff_getElem.mp (sorted_sortedPairs cfg entries)) i j hi2 hj2 hij
  rw [getElem_filterAndSortEntries cfg entries i hi2 hi,
    getElem_filterAndSortEntries cfg entries j hj2 hj]
  rw [sortLE_iff] at hle
  simp only [setLastFlag]
  rcases hle with ⟨h1, h2⟩ | ⟨h1, h2⟩
  · constructor
    · intro hq
      rw [h2] at hq
      cases hq
    · intro hpq
      rw [h1, h2] at hpq
      cases hpq
  · exact ⟨fun hq => h1.trans hq, fun _ => h2⟩

/-- The data of a pipeline element, without the recomputed `isLast` flag. -/
def entryData (p : FileEntry × FSNode) :
    (String × List String × Bool × Option Stats) × FSNode :=
  ((p.1.name, p.1.fullPath, p.1.isDirectory, p.1.stats), p.2)

lemma map_entryData_filterAndSortEntries (cfg : TreeGeneratorConfig)
    (entries : List (FileEntry × FSNode)) :
    (filterAndSortEntries cfg entries).map entryData =
      (sortedPairs cfg entries).map entryData := by
  apply List.ext_getElem
  · rw [List.length_map, List.length_map, length_filterAndSortEntries]
  · intro i h1 h2
    have hi2 : i < (sortedPairs cfg entries).length := by
      simpa using h2
    rw [List.getElem_map, List.getElem_map,
      getElem_filterAndSortEntries cfg entries i hi2 (by simpa using h1)]
    simp [entryData, setLastFlag]

/-- Stability of the sorting stage, in the form of
`List.pair_sublist_insertionSort`: a pair that is in the right order in the
filtered list stays in that order in the sorted list. -/
lemma sortedPairs_stable (cfg : TreeGeneratorConfig)
    (entries : List (FileEntry × FSNode)) (p q : FileEntry × FSNode)
    (hpq : sortLE p q) (hsub : List.Sublist [p, q] (filteredPairs cfg entries)) :
    List.Sublist [p, q] (sortedPairs cfg entries) :=
  List.pair_sublist_insertionSort hpq hsub

-- ### The recomputed `isLast` flags

lemma isLast_filterAndSortEntries (cfg : TreeGeneratorConfig)
    (entries : List (FileEntry × FSNode))
    (hne : filterAndSortEntries cfg entries ≠ []) :
    (filterAndSortEntries cfg entries).map (fun p => p.1.isLast) =
      List.replicate ((filterAndSortEntries cfg entries).length - 1) false
        ++ [true] := by
  have hlen := length_filterAndSortEntries cfg entries
  have hpos : 0 < (filterAndSortEntries cfg entries).length :=
    List.length_pos.mpr hne
  apply List.ext_getElem
  · simp
    omega
  · intro i h1 h2
    have hi : i < (filterAndSortEntries cfg entries).length := by
      simpa using h1
    have hi2 : i < (sortedPairs cfg entries).length := by
      rw [← hlen]; exact hi
    rw [List.getElem_map]
    rw [getElem_filterAndSortEntries cfg entries i hi2 hi]
    simp only [setLastFlag]
    by_cases hlast : i = (filterAndSortEntries cfg entries).length - 1
    · rw [List.getElem_append_right]
      · simp [hlast, hlen]
      · simp
        omega
    · have hilt : i < (filterAndSortEntries cfg entries).length - 1 := by omega
      rw [List.getElem_append_left]
      · simp [hlen]
        omega
      · simp
        omega

-- ### Concrete fixtures (the repository's test scenario and variants)

/-- Options/config with no depth limit and no ignore rules. -/
def sampleConfig : TreeGeneratorConfig :=
  { startPath := ["root"], maxDepth := none, ignoreRules := fun _ => false }

/-- Same start path with `--depth 1`. -/
def sampleConfigDepth1 : TreeGeneratorConfig :=
  { startPath := ["root"], maxDepth := some 1, ignoreRules := fun _ => false }

/-- Config whose composed ignore predicate matches exactly `secret.txt`. -/
def sampleIgnoreConfig : TreeGeneratorConfig :=
  { startPath := ["root"], maxDepth := none,
    ignoreRules := fun p => p == ["secret.txt"] }

/-- The directory tree of the repository's own test
(`test/test-dir`: `subdir/file2.txt` and `file1.txt`). -/
def sampleTree : FSNode :=
  .dir "root" none [.dir "subdir" none [.file "file2.txt"], .file "file1.txt"]

/-- A tree with one ignored file, one OS-junk file and one visible file. -/
def sampleIgnoreTree : FSNode :=
  .dir "root" none [.file "secret.txt", .file ".DS_Store", .file "visible.txt"]

/-- A tree whose only listed entry is OS junk with failing classification. -/
def brokenJunkTree : FSNode :=
  .dir "root" none [.broken ".DS_Store"]

/-- The extra rule contributed by `options.exclude`, if any. -/
def excludeRule (options : TreeOptions) : List String :=
  match options.exclude with
  | some pat => [pat]
  | none => []

lemma sample_run :
    generate sampleConfig sampleTree =
      .ok "root"
        [.entryLine "" false "subdir" ["root", "subdir"] true,
         .entryLine "│   " true "file2.txt" ["root", "subdir", "file2.txt"] false,
         .entryLine "" true "file1.txt" ["root", "file1.txt"] false]
        { dirCount := 1, fileCount := 2 } := by
  simp [generate, sampleConfig, sampleTree, walk, walkEntries, getDirectoryContents,
    createFileEntries, filterAndSortEntries, FilterUtils.createSystemFileFilter,
    FilterUtils.createIgnoreFilter, systemFiles, depthExceeded, displayEntry,
    getNextPrefixStr, TREE_SYMBOLS.VERTICAL, pathBasename, FileUtils.isDirectory,
    FileUtils.getFileStat, List.insertionSort, List.orderedInsert, sortLE,
    SortUtils.createDefaultSort, localeCompare, FSNode.name]

/-- The spec scenario output, line for line, matching the repository's test. -/
lemma sample_run_text :
    (generate sampleConfig sampleTree).stdoutLines =
      ["root", "├── subdir", "│   └── file2.txt", "└── file1.txt",
       "\n1 directories, 2 files"] := by
  rw [sample_run]
  simp only [GenerateResult.stdoutLines, OutLine.text, summaryText,
    TREE_SYMBOLS.BRANCH, TREE_SYMBOLS.LAST, List.map_cons, List.map_nil]
  rfl

lemma sample_run_depth1 :
    generate sampleConfigDepth1 sampleTree =
      .ok "root"
        [.entryLine "" false "subdir" ["root", "subdir"] true,
         .entryLine "" true "file1.txt" ["root", "file1.txt"] false]
        { dirCount := 1, fileCount := 1 } := by
  simp [generate, sampleConfigDepth1, sampleTree, walk, walkEntries,
    getDirectoryContents, createFileEntries, filterAndSortEntries,
    FilterUtils.createSystemFileFilter, FilterUtils.createIgnoreFilter, systemFiles,
    depthExceeded, displayEntry, getNextPrefixStr, pathBasename,
    FileUtils.isDirectory, FileUtils.getFileStat, List.insertionSort,
    List.orderedInsert, sortLE, SortUtils.createDefaultSort, localeCompare,
    FSNode.name]

lemma sample_run_ignore :
    generate sampleIgnoreConfig sampleIgnoreTree =
      .ok "root"
        [.entryLine "" true "visible.txt" ["root", "visible.txt"] false]
        { dirCount := 0, fileCount := 1 } := by
  simp [generate, sampleIgnoreConfig, sampleIgnoreTree, walk, walkEntries,
    getDirectoryContents, createFileEntries, filterAndSortEntries, pathRelative,
    FilterUtils.createSystemFileFilter, FilterUtils.createIgnoreFilter, systemFiles,
    depthExceeded, displayEntry, getNextPrefixStr, pathBasename,
    FileUtils.isDirectory, FileUtils.getFileStat, List.insertionSort,
    List.orderedInsert, sortLE, SortUtils.createDefaultSort, localeCompare,
    FSNode.name]

-- ## Claim theorems

/-- C1: for every run of the tree generator, the final reported directory
count and file count equal exactly the number of directory lines and file
lines printed during traversal (counters are advanced exactly with the
rendered lines, so filtered-out entries are never counted). -/
theorem C1_counts_equal_rendered_lines (cfg : TreeGeneratorConfig) (root : FSNode)
    (header : String) (lines : List OutLine) (stats : TreeStats)
    (h : generate cfg root = .ok header lines stats) :
    stats.dirCount = countDirLines lines ∧ stats.fileCount = countFileLines lines := by
  unfold generate at h
  by_cases hd : FileUtils.isDirectory root = true
  · rw [if_pos hd] at h
    simp only [GenerateResult.ok.injEq] at h
    rcases h with ⟨h1, h2, h3⟩
    have hc := (walk_counts cfg).1 root cfg.startPath "" 1 { dirCount := 0, fileCount := 0 }
    rw [h2, h3] at hc
    simpa using hc
  · rw [if_neg hd] at h
    cases h

/-- Witness for C1 on the repository's own test scenario. -/
theorem C1_witness :
    (TreeStats.mk 1 2).dirCount =
      countDirLines
        [.entryLine "" false "subdir" ["root", "subdir"] true,
         .entryLine "│   " true "file2.txt" ["root", "subdir", "file2.txt"] false,
         .entryLine "" true "file1.txt" ["root", "file1.txt"] false] ∧
    (TreeStats.mk 1 2).fileCount =
      countFileLines
        [.entryLine "" false "subdir" ["root", "subdir"] true,
         .entryLine "│   " true "file2.txt" ["root", "subdir", "file2.txt"] false,
         .entryLine "" true "file1.txt" ["root", "file1.txt"] false] :=
  C1_counts_equal_rendered_lines sampleConfig sampleTree "root" _ _ sample_run

/-- C8: if the start path does not exist or is not a directory, the run
terminates with exit code 1 before any tree output, reporting a single
invalid-path error line on the error stream. -/
theorem C8_invalid_start_path (cfg : TreeGeneratorConfig) (root : FSNode)
    (h : FileUtils.isDirectory root = false) :
    generate cfg root =
      .fatal ("Error [INVALID_PATH_ERROR]: Invalid path: " ++
        pathToString cfg.startPath) ∧
    (generate cfg root).exitCode = 1 ∧
    (generate cfg root).stdoutLines = [] ∧
    (generate cfg root).stderrLines =
      ["Error [INVALID_PATH_ERROR]: Invalid path: " ++ pathToString cfg.startPath] := by
  have hg : generate cfg root =
      .fatal ("Error [INVALID_PATH_ERROR]: Invalid path: " ++
        pathToString cfg.startPath) := by
    unfold generate
    rw [if_neg (by simp [h])]
  exact ⟨hg, by rw [hg]; rfl, by rw [hg]; rfl, by rw [hg]; rfl⟩

/-- Witness for C8: a start path on which `statSync` fails (nonexistent). -/
theorem C8_witness :
    generate sampleConfig (.broken "root") =
      .fatal "Error [INVALID_PATH_ERROR]: Invalid path: root" ∧
    (generate sampleConfig (.broken "root")).exitCode = 1 ∧
    (generate sampleConfig (.broken "root")).stdoutLines = [] ∧
    (generate sampleConfig (.broken "root")).stderrLines =
      ["Error [INVALID_PATH_ERROR]: Invalid path: root"] := by
  have := C8_invalid_start_path sampleConfig (.broken "root") rfl
  simpa [sampleConfig, pathToString] using this

/-- C9: the entry classifier never raises; any access failure (stat returns
nothing) resolves to neither-directory-nor-file with metadata absent. -/
theorem C9_classifier_never_raises (node : FSNode)
    (h : FileUtils.getFileStat node = none) :
    FileUtils.isDirectory node = false ∧ FileUtils.isFile node = false := by
  unfold FileUtils.isDirectory FileUtils.isFile
  rw [h]
  exact ⟨rfl, rfl⟩

/-- Witness for C9: a race-deleted / broken-symlink path. -/
theorem C9_witness :
    FileUtils.isDirectory (.broken "ghost") = false ∧
    FileUtils.isFile (.broken "ghost") = false :=
  C9_classifier_never_raises (.broken "ghost") rfl

/-- C2: with `--depth N`, no entry at nesting level greater than N below the
root is printed (the root's direct children being level 1); with depth unset
the walk equals the cutoff-free reference walker, printing every level; and
a walk invoked at `currentDepth > maxDepth` returns immediately with no
output. -/
theorem C2_depth_law (cfg : TreeGeneratorConfig) (root : FSNode) :
    (∀ N header lines stats, cfg.maxDepth = some N →
      generate cfg root = .ok header lines stats →
      ∀ line ∈ lines, ∀ p2 il nm fp di, line = OutLine.entryLine p2 il nm fp di →
        fp.length ≤ cfg.startPath.length + N) ∧
    (cfg.maxDepth = none →
      ∀ node currentPath pfx currentDepth st,
        walk cfg node currentPath pfx currentDepth st =
          fullWalk cfg node currentPath pfx st) ∧
    (∀ node currentPath pfx currentDepth st,
      depthExceeded cfg.maxDepth currentDepth = true →
      walk cfg node currentPath pfx currentDepth st = ([], st)) := by
  refine ⟨?_, ?_, ?_⟩
  · intro N header lines stats hN hg line hline p2 il nm fp di heq
    unfold generate at hg
    by_cases hd : FileUtils.isDirectory root = true
    · rw [if_pos hd] at hg
      simp only [GenerateResult.ok.injEq] at hg
      rcases hg with ⟨h1, h2, h3⟩
      have hb := (walk_depth_bound cfg N hN).1 root cfg.startPath "" 1
        { dirCount := 0, fileCount := 0 } line (by rw [h2]; exact hline)
        p2 il nm fp di heq
      omega
    · rw [if_neg hd] at hg
      cases hg
  · intro hN node currentPath pfx currentDepth st
    exact (walk_eq_fullWalk cfg hN).1 node currentPath pfx currentDepth st
  · intro node currentPath pfx currentDepth st h
    exact walk_depthExceeded h

/-- Witness for C2 on the `--depth 1` scenario. -/
theorem C2_witness :
    (∀ line ∈
        [OutLine.entryLine "" false "subdir" ["root", "subdir"] true,
         OutLine.entryLine "" true "file1.txt" ["root", "file1.txt"] false],
      ∀ p2 il nm fp di, line = OutLine.entryLine p2 il nm fp di →
        fp.length ≤ 2) ∧
    walk sampleConfig sampleTree ["root"] "" 5 { dirCount := 0, fileCount := 0 } =
      fullWalk sampleConfig sampleTree ["root"] "" { dirCount := 0, fileCount := 0 } ∧
    walk sampleConfigDepth1 sampleTree ["root"] "" 2 { dirCount := 3, fileCount := 4 } =
      ([], { dirCount := 3, fileCount := 4 }) := by
  refine ⟨?_, ?_, ?_⟩
  · intro line hline p2 il nm fp di heq
    have := (C2_depth_law sampleConfigDepth1 sampleTree).1 1 "root" _ _ rfl
      sample_run_depth1 line hline p2 il nm fp di heq
    simpa [sampleConfigDepth1] using this
  · exact (C2_depth_law sampleConfig sampleTree).2.1 rfl sampleTree ["root"] "" 5
      { dirCount := 0, fileCount := 0 }
  · exact (C2_depth_law sampleConfigDepth1 sampleTree).2.2 sampleTree ["root"] "" 2
      { dirCount := 3, fileCount := 4 } rfl

/-- C3: a directory whose listing fails yields exactly one error line (with
the current prefix and the terminal connector glyph) in place of its
children, no recursion into it, no exception; the parent's remaining
siblings continue with unchanged counters, and the exit code is
unaffected. -/
theorem C3_unreadable_directory (cfg : TreeGeneratorConfig) :
    (∀ (n msg : String) (cs : List FSNode) currentPath pfx currentDepth st,
      depthExceeded cfg.maxDepth currentDepth = false →
      walk cfg (.dir n (some msg) cs) currentPath pfx currentDepth st =
        ([OutLine.errorLine pfx msg], st)) ∧
    (∀ pfx msg, (OutLine.errorLine pfx msg).text =
      pfx ++ TREE_SYMBOLS.LAST ++ "[Error: " ++ msg ++ "]") ∧
    (∀ (entry : FileEntry) (n msg : String) (cs : List FSNode) rest pfx
        currentDepth st,
      entry.isDirectory = true →
      depthExceeded cfg.maxDepth (currentDepth + 1) = false →
      walkEntries cfg ((entry, FSNode.dir n (some msg) cs) :: rest) pfx
          currentDepth st =
        ((.entryLine pfx entry.isLast entry.name entry.fullPath true) ::
          (.errorLine (getNextPrefixStr pfx entry.isLast) msg) ::
          (walkEntries cfg rest pfx currentDepth
            { st with dirCount := st.dirCount + 1 }).1,
         (walkEntries cfg rest pfx currentDepth
            { st with dirCount := st.dirCount + 1 }).2)) ∧
    (∀ root : FSNode, FileUtils.isDirectory root = true →
      (generate cfg root).exitCode = 0) := by
  have herrWalk : ∀ (n msg : String) (cs : List FSNode) currentPath pfx
      currentDepth st,
      depthExceeded cfg.maxDepth currentDepth = false →
      walk cfg (.dir n (some msg) cs) currentPath pfx currentDepth st =
        ([OutLine.errorLine pfx msg], st) := by
    intro n msg cs currentPath pfx currentDepth st h
    have herr : (getDirectoryContents cfg currentPath
        (FSNode.dir n (some msg) cs)).hasErrors = true := rfl
    rw [walk_hasErrors h herr]
    rfl
  refine ⟨herrWalk, fun pfx msg => rfl, ?_, ?_⟩
  · intro entry n msg cs rest pfx currentDepth st hdir hd
    rw [walkEntries_cons_dir cfg (FSNode.dir n (some msg) cs) rest pfx currentDepth
      st hdir]
    rw [herrWalk n msg cs entry.fullPath (getNextPrefixStr pfx entry.isLast)
      (currentDepth + 1) { st with dirCount := st.dirCount + 1 } hd]
    rfl
  · intro root hroot
    unfold generate
    rw [if_pos hroot]
    rfl

/-- Witness for C3: an unreadable subdirectory under a readable root. -/
theorem C3_witness :
    walk sampleConfig (.dir "locked" (some "EACCES: permission denied") [])
        ["root", "locked"] "│   " 2 { dirCount := 1, fileCount := 0 } =
      ([OutLine.errorLine "│   " "EACCES: permission denied"],
       { dirCount := 1, fileCount := 0 }) ∧
    (OutLine.errorLine "│   " "EACCES: permission denied").text =
      "│   " ++ TREE_SYMBOLS.LAST ++ "[Error: " ++ "EACCES: permission denied"
        ++ "]" ∧
    walkEntries sampleConfig
        [({ name := "locked", fullPath := ["root", "locked"], isDirectory := true,
            isLast := true, stats := some { isDirectory := true, isFile := false } },
          FSNode.dir "locked" (some "EACCES: permission denied") [])]
        "" 1 { dirCount := 0, fileCount := 0 } =
      ([.entryLine "" true "locked" ["root", "locked"] true,
        .errorLine (getNextPrefixStr "" true) "EACCES: permission denied"],
       { dirCount := 1, fileCount := 0 }) ∧
    (generate sampleConfig sampleTree).exitCode = 0 := by
  refine ⟨(C3_unreadable_directory sampleConfig).1 "locked"
      "EACCES: permission denied" [] ["root", "locked"] "│   " 2
      { dirCount := 1, fileCount := 0 } rfl,
    (C3_unreadable_directory sampleConfig).2.1 "│   " "EACCES: permission denied",
    ?_, (C3_unreadable_directory sampleConfig).2.2.2 sampleTree rfl⟩
  have := (C3_unreadable_directory sampleConfig).2.2.1
    { name := "locked", fullPath := ["root", "locked"], isDirectory := true,
      isLast := true, stats := some { isDirectory := true, isFile := false } }
    "locked" "EACCES: permission denied" [] [] "" 1
    { dirCount := 0, fileCount := 0 } rfl rfl
  rw [this, walkEntries_nil]

/-- C4: the filter/sort pipeline orders all directories before all files
regardless of name; within the same kind names are in ascending order; the
sort is stable (pairs already in comparator order, ties included, keep
their relative order), and the final stage only recomputes `isLast`
flags. -/
theorem C4_ordering_law (cfg : TreeGeneratorConfig)
    (entries : List (FileEntry × FSNode)) :
    (filterAndSortEntries cfg entries).Pairwise (fun p q =>
      (q.1.isDirectory = true → p.1.isDirectory = true) ∧
      (p.1.isDirectory = q.1.isDirectory → p.1.name ≤ q.1.name)) ∧
    (∀ p q, sortLE p q → List.Sublist [p, q] (filteredPairs cfg entries) →
      List.Sublist [p, q] (sortedPairs cfg entries)) ∧
    (filterAndSortEntries cfg entries).map entryData =
      (sortedPairs cfg entries).map entryData :=
  ⟨pairwise_filterAndSortEntries cfg entries,
   fun p q hpq hsub => sortedPairs_stable cfg entries p q hpq hsub,
   map_entryData_filterAndSortEntries cfg entries⟩

/-- Witness for C4: a directory sorts before an alphabetically-earlier file,
and a tied pair (equal names, same kind) keeps its original order. -/
theorem C4_witness :
    (filterAndSortEntries sampleConfig
        [({ name := "b.txt", fullPath := ["root", "b.txt"], isDirectory := false,
            isLast := false, stats := some { isDirectory := false, isFile := true } },
          FSNode.file "b.txt"),
         ({ name := "zdir", fullPath := ["root", "zdir"], isDirectory := true,
            isLast := true, stats := some { isDirectory := true, isFile := false } },
          FSNode.dir "zdir" none [])]).Pairwise (fun p q =>
      (q.1.isDirectory = true → p.1.isDirectory = true) ∧
      (p.1.isDirectory = q.1.isDirectory → p.1.name ≤ q.1.name)) ∧
    List.Sublist
      [({ name := "dup.txt", fullPath := ["root", "x", "dup.txt"],
          isDirectory := false, isLast := false,
          stats := some { isDirectory := false, isFile := true } },
        FSNode.file "dup.txt"),
       ({ name := "dup.txt", fullPath := ["root", "y", "dup.txt"],
          isDirectory := false, isLast := true,
          stats := some { isDirectory := false, isFile := true } },
        FSNode.file "dup.txt")]
      (sortedPairs sampleConfig
        [({ name := "dup.txt", fullPath := ["root", "x", "dup.txt"],
            isDirectory := false, isLast := false,
            stats := some { isDirectory := false, isFile := true } },
          FSNode.file "dup.txt"),
         ({ name := "dup.txt", fullPath := ["root", "y", "dup.txt"],
            isDirectory := false, isLast := true,
            stats := some { isDirectory := false, isFile := true } },
          FSNode.file "dup.txt")]) := by
  constructor
  · exact (C4_ordering_law sampleConfig _).1
  · refine (C4_ordering_law sampleConfig _).2.1 _ _ ?_ ?_
    · simp [sortLE, SortUtils.createDefaultSort, localeCompare]
    · have hfp : filteredPairs sampleConfig
          [({ name := "dup.txt", fullPath := ["root", "x", "dup.txt"],
              isDirectory := false, isLast := false,
              stats := some { isDirectory := false, isFile := true } },
            FSNode.file "dup.txt"),
           ({ name := "dup.txt", fullPath := ["root", "y", "dup.txt"],
              isDirectory := false, isLast := true,
              stats := some { isDirectory := false, isFile := true } },
            FSNode.file "dup.txt")] =
          [({ name := "dup.txt", fullPath := ["root", "x", "dup.txt"],
              isDirectory := false, isLast := false,
              stats := some { isDirectory := false, isFile := true } },
            FSNode.file "dup.txt"),
           ({ name := "dup.txt", fullPath := ["root", "y", "dup.txt"],
              isDirectory := false, isLast := true,
              stats := some { isDirectory := false, isFile := true } },
            FSNode.file "dup.txt")] := by
        simp [filteredPairs, FilterUtils.createSystemFileFilter,
          FilterUtils.createIgnoreFilter, systemFiles, sampleConfig]
      rw [hfp]

/-- C5: an entry whose base name is in the fixed OS-junk blocklist, or whose
path relative to the single global start path satisfies the composed ignore
predicate, never appears in the output of a run and is never counted (the
final counters count exactly the rendered lines, all of which passed both
filters). -/
theorem C5_exclusion_law (cfg : TreeGeneratorConfig) (root : FSNode)
    (header : String) (lines : List OutLine) (stats : TreeStats)
    (h : generate cfg root = .ok header lines stats) :
    (∀ line ∈ lines, ∀ p2 il nm fp di, line = OutLine.entryLine p2 il nm fp di →
      systemFiles.contains nm = false ∧
      cfg.ignoreRules (pathRelative cfg.startPath fp) = false) ∧
    stats.dirCount = countDirLines lines ∧
    stats.fileCount = countFileLines lines := by
  unfold generate at h
  by_cases hd : FileUtils.isDirectory root = true
  · rw [if_pos hd] at h
    simp only [GenerateResult.ok.injEq] at h
    rcases h with ⟨h1, h2, h3⟩
    refine ⟨?_, ?_, ?_⟩
    · intro line hline p2 il nm fp di heq
      exact (walk_filters cfg).1 root cfg.startPath "" 1
        { dirCount := 0, fileCount := 0 } line (by rw [h2]; exact hline)
        p2 il nm fp di heq
    · have hc := ((walk_counts cfg).1 root cfg.startPath "" 1
        { dirCount := 0, fileCount := 0 }).1
      rw [h2, h3] at hc
      simpa using hc
    · have hc := ((walk_counts cfg).1 root cfg.startPath "" 1
        { dirCount := 0, fileCount := 0 }).2
      rw [h2, h3] at hc
      simpa using hc
  · rw [if_neg hd] at h
    cases h

/-- Witness for C5: a run where `secret.txt` is ignored and `.DS_Store` is
OS junk; only `visible.txt` is rendered and it passed both filters. -/
theorem C5_witness :
    (∀ line ∈ [OutLine.entryLine "" true "visible.txt" ["root", "visible.txt"]
        false],
      ∀ p2 il nm fp di, line = OutLine.entryLine p2 il nm fp di →
        systemFiles.contains nm = false ∧
        sampleIgnoreConfig.ignoreRules
          (pathRelative sampleIgnoreConfig.startPath fp) = false) ∧
    (TreeStats.mk 0 1).dirCount =
      countDirLines [OutLine.entryLine "" true "visible.txt"
        ["root", "visible.txt"] false] ∧
    (TreeStats.mk 0 1).fileCount =
      countFileLines [OutLine.entryLine "" true "visible.txt"
        ["root", "visible.txt"] false] :=
  C5_exclusion_law sampleIgnoreConfig sampleIgnoreTree "root" _ _ sample_run_ignore

/-- C6: after the pipeline, exactly the final element of a non-empty
filtered, sorted sibling group carries `isLast = true` (all others are
false), and rendering uses the terminal connector glyph exactly for that
flag. -/
theorem C6_last_entry_law (cfg : TreeGeneratorConfig)
    (entries : List (FileEntry × FSNode)) :
    (filterAndSortEntries cfg entries ≠ [] →
      (filterAndSortEntries cfg entries).map (fun p => p.1.isLast) =
        List.replicate ((filterAndSortEntries cfg entries).length - 1) false
          ++ [true]) ∧
    (∀ (entry : FileEntry) pfx st,
      ((displayEntry entry pfx st).1).text =
        pfx ++ (if entry.isLast then TREE_SYMBOLS.LAST else TREE_SYMBOLS.BRANCH)
          ++ entry.name) := by
  constructor
  · exact isLast_filterAndSortEntries cfg entries
  · intro entry pfx st
    by_cases hdir : entry.isDirectory = true
    · rw [displayEntry_of_dir pfx st hdir]
      cases entry.isLast <;> rfl
    · rw [displayEntry_of_file pfx st (by simpa using hdir)]
      cases entry.isLast <;> rfl

/-- Witness for C6: two plain files; only the second (sorted last) is
flagged, and the flagged entry renders with the terminal glyph. -/
theorem C6_witness :
    (filterAndSortEntries sampleConfig
        (createFileEntries ["root"] [.file "a.txt", .file "b.txt"])).map
        (fun p => p.1.isLast) =
      List.replicate
        ((filterAndSortEntries sampleConfig
          (createFileEntries ["root"] [.file "a.txt", .file "b.txt"])).length - 1)
        false ++ [true] ∧
    ((displayEntry
        { name := "b.txt", fullPath := ["root", "b.txt"], isDirectory := false,
          isLast := true, stats := some { isDirectory := false, isFile := true } }
        "" { dirCount := 0, fileCount := 0 }).1).text =
      "" ++ TREE_SYMBOLS.LAST ++ "b.txt" := by
  constructor
  · refine (C6_last_entry_law sampleConfig
      (createFileEntries ["root"] [.file "a.txt", .file "b.txt"])).1 ?_
    simp only [filterAndSortEntries, createFileEntries, filteredPairs,
      FilterUtils.createSystemFileFilter, FilterUtils.createIgnoreFilter,
      systemFiles, sampleConfig, List.insertionSort, List.orderedInsert,
      FileUtils.isDirectory, FileUtils.getFileStat, FSNode.name]
    simp
    split <;> simp
  · have := (C6_last_entry_law sampleConfig []).2
      { name := "b.txt", fullPath := ["root", "b.txt"], isDirectory := false,
        isLast := true, stats := some { isDirectory := false, isFile := true } }
      "" { dirCount := 0, fileCount := 0 }
    simpa using this

/-- C7: ignore-rule setup loads the all-ignore-files sources when
`allignore` is set (even when `gitignore` is also set), otherwise the
single ignore file when `gitignore` is set, otherwise nothing; the
explicit exclude pattern, when supplied, is always added as one more
rule. -/
theorem C7_ignore_rule_setup (options : TreeOptions) (env : SetupEnv) :
    (options.allignore = true →
      setupIgnoreRules options env =
        ((loadAllIgnoreRules env).1 ++ excludeRule options,
         (loadAllIgnoreRules env).2)) ∧
    (options.allignore = false → options.gitignore = true →
      setupIgnoreRules options env =
        ((loadGitignoreRules env).1 ++ excludeRule options,
         (loadGitignoreRules env).2)) ∧
    (options.allignore = false → options.gitignore = false →
      setupIgnoreRules options env = (excludeRule options, [])) ∧
    (∀ pat, options.exclude = some pat → pat ∈ (setupIgnoreRules options env).1) := by
  refine ⟨?_, ?_, ?_, ?_⟩
  · intro ha
    unfold setupIgnoreRules excludeRule
    cases options.exclude <;> simp [ha]
  · intro ha hg
    unfold setupIgnoreRules excludeRule
    cases options.exclude <;> simp [ha, hg]
  · intro ha hg
    unfold setupIgnoreRules excludeRule
    cases options.exclude <;> simp [ha, hg]
  · intro pat hpat
    unfold setupIgnoreRules
    rw [hpat]
    cases ha : options.allignore <;> simp

/-- Witness for C7: both flags set plus an explicit exclude pattern; the
all-ignore sources win and the pattern is appended. -/
theorem C7_witness :
    setupIgnoreRules
        { path := "root", depth := none, exclude := some "dist",
          gitignore := true, allignore := true }
        { gitignore := .ok "gitignore-rules",
          listing := some
            [{ name := ".gitignore", isFile := true, read := .ok "gitignore-rules" },
             { name := ".npmignore", isFile := true, read := .ok "npmignore-rules" },
             { name := "README.md", isFile := true, read := .ok "unrelated" }] } =
      (["gitignore-rules", "npmignore-rules", "dist"], []) ∧
    "dist" ∈
      (setupIgnoreRules
        { path := "root", depth := none, exclude := some "dist",
          gitignore := true, allignore := true }
        { gitignore := .ok "gitignore-rules",
          listing := some
            [{ name := ".gitignore", isFile := true, read := .ok "gitignore-rules" },
             { name := ".npmignore", isFile := true, read := .ok "npmignore-rules" },
             { name := "README.md", isFile := true, read := .ok "unrelated" }] }).1 := by
  constructor
  · have := (C7_ignore_rule_setup
      { path := "root", depth := none, exclude := some "dist",
        gitignore := true, allignore := true }
      { gitignore := .ok "gitignore-rules",
        listing := some
          [{ name := ".gitignore", isFile := true, read := .ok "gitignore-rules" },
           { name := ".npmignore", isFile := true, read := .ok "npmignore-rules" },
           { name := "README.md", isFile := true, read := .ok "unrelated" }] }).1 rfl
    rw [this]
    decide
  · exact (C7_ignore_rule_setup _ _).2.2.2 "dist" rfl

/-- C10 counterexample: a listed entry whose classification fails
(`.DS_Store` as a broken path: `readdirSync` lists it, `statSync` throws)
is removed by the OS-junk filter, so the walker renders nothing and the
file count stays 0 — contradicting "the walker still renders it ... and
increments the file count; such entries are never silently skipped". -/
theorem C10_counterexample :
    FileUtils.getFileStat (FSNode.broken ".DS_Store") = none ∧
    createFileEntries ["root"] [FSNode.broken ".DS_Store"] =
      [({ name := ".DS_Store", fullPath := ["root", ".DS_Store"],
          isDirectory := false, isLast := true, stats := none },
        FSNode.broken ".DS_Store")] ∧
    (getDirectoryContents sampleConfig ["root"] brokenJunkTree).hasErrors = false ∧
    walk sampleConfig brokenJunkTree ["root"] "" 1 { dirCount := 0, fileCount := 0 } =
      ([], { dirCount := 0, fileCount := 0 }) := by
  refine ⟨rfl, by simp [createFileEntries, FileUtils.isDirectory,
    FileUtils.getFileStat, FSNode.name], rfl, ?_⟩
  simp [walk, walkEntries, getDirectoryContents, createFileEntries,
    filterAndSortEntries, sampleConfig, brokenJunkTree,
    FilterUtils.createSystemFileFilter, FilterUtils.createIgnoreFilter,
    systemFiles, depthExceeded, FileUtils.isDirectory, FileUtils.getFileStat,
    FSNode.name]

/-- C10 (amended): an entry whose classification fails is classified as a
non-directory, and every entry of the filtered, sorted sibling list that
reaches the display loop with `isDirectory = false` — classification
failures included — is rendered as a file line through the non-directory
branch of `displayEntry`, increments the file counter, and is not recursed
into; only the blocklist/ignore filters may remove such an entry before
display. -/
theorem C10_render_unclassified_as_file (cfg : TreeGeneratorConfig) :
    (∀ c : FSNode, FileUtils.getFileStat c = none →
      FileUtils.isDirectory c = false) ∧
    (∀ (entry : FileEntry) child rest pfx currentDepth st,
      entry.isDirectory = false →
      walkEntries cfg ((entry, child) :: rest) pfx currentDepth st =
        ((.entryLine pfx entry.isLast entry.name entry.fullPath false) ::
          (walkEntries cfg rest pfx currentDepth
            { st with fileCount := st.fileCount + 1 }).1,
         (walkEntries cfg rest pfx currentDepth
            { st with fileCount := st.fileCount + 1 }).2)) := by
  constructor
  · intro c hc
    unfold FileUtils.isDirectory
    rw [hc]
    rfl
  · intro entry child rest pfx currentDepth st hfile
    rw [walkEntries_cons_file cfg child rest pfx currentDepth st hfile]

/-- Witness for the amended C10: a broken (unclassifiable) entry that
survives the filters is rendered as a file line and counted as a file. -/
theorem C10_witness :
    FileUtils.isDirectory (FSNode.broken "ghost") = false ∧
    walkEntries sampleConfig
        [({ name := "ghost", fullPath := ["root", "ghost"], isDirectory := false,
            isLast := true, stats := none }, FSNode.broken "ghost")]
        "" 1 { dirCount := 0, fileCount := 0 } =
      ([.entryLine "" true "ghost" ["root", "ghost"] false],
       { dirCount := 0, fileCount := 1 }) := by
  constructor
  · exact (C10_render_unclassified_as_file sampleConfig).1 (FSNode.broken "ghost") rfl
  · have := (C10_render_unclassified_as_file sampleConfig).2
      { name := "ghost", fullPath := ["root", "ghost"], isDirectory := false,
        isLast := true, stats := none }
      (FSNode.broken "ghost") [] "" 1 { dirCount := 0, fileCount := 0 } rfl
    rw [this, walkEntries_nil]
